import Mathlib

/-!
Verification of the resume matching engine (`src/backend/resume_agents.py` and
`src/backend/resume_analyzer_v7.py`) against its natural-language specification.

The Python code is shallowly embedded:
* the JSON profile ledger `self.resumes["resumes"]` (a Python dict, which is
  insertion ordered and updates keys in place) is embedded as an association
  list `List (String × ResumeRecord)` with in-place update `setKey`;
* the Chroma vector store is embedded as an association list keyed by the
  chunk-id strings the code builds; the external LLM/scoring oracle is a
  function parameter returning `Except` (an exception or a response string);
* Python floats in the score path are embedded as `ℚ` (no rounding is relevant
  to the verified properties); `time.time()` timestamps are an opaque `Nat`
  supplied per call.
-/

/-- Metadata of a profile: an open string-to-scalar mapping (the code never
inspects it, only copies it around), embedded as an association list. -/
abbrev Metadata := List (String × String)

/-- One feedback event, as appended by `ResumeStore.add_feedback`:
`{"timestamp": time.time(), "is_positive": is_positive, "text": feedback_text}`. -/
structure FeedbackEvent where
  timestamp : Nat
  is_positive : Bool
  text : Option String
deriving DecidableEq, Repr

/-- One record of the JSON ledger `self.resumes["resumes"][resume_id]`.
`feedback = none` models the dict having no `"feedback"` key (as written by
`add_resume`); `some l` models the key holding the list `l`. -/
structure ResumeRecord where
  summary : String
  metadata : Metadata
  feedback : Option (List FeedbackEvent)
deriving DecidableEq, Repr

/-- The profile ledger: the dict `self.resumes["resumes"]`, as an insertion
ordered association list with unique keys. -/
abbrev Ledger := List (String × ResumeRecord)

/-- One entry of the Chroma vector store, as written by `add_resume`:
a chunk text plus the metadata dict `{"resume_id": rid, "chunk_id": i, **metadata}`. -/
structure ChunkEntry where
  text : String
  resume_id : String
  chunk_id : Nat
  metadata : Metadata
deriving DecidableEq, Repr

/-- The vector store keyed by the chunk-id strings `f"{resume_id}_chunk_{i}"`. -/
abbrev VectorStore := List (String × ChunkEntry)

/-- Whole `ResumeStore` state: the JSON ledger and the Chroma collection. -/
structure ResumeStore where
  resumes : Ledger
  vector_store : VectorStore
deriving DecidableEq

/-- Python dict read `d.get(k)` / `d[k]`: first (only) binding of a key. -/
def lookupKey {α : Type} : List (String × α) → String → Option α
  | [], _ => none
  | (k, v) :: rest, key => if k = key then some v else lookupKey rest key

/-- Python dict write `d[k] = v`: replaces the binding in place if the key
exists (dicts keep the original insertion position), else appends. -/
def setKey {α : Type} : List (String × α) → String → α → List (String × α)
  | [], key, v => [(key, v)]
  | (k, w) :: rest, key, v =>
      if k = key then (key, v) :: rest else (k, w) :: setKey rest key v

/-- The keys of an association list, in order. -/
def keysOf {α : Type} (l : List (String × α)) : List String := l.map Prod.fst

/-- Number of bindings of a key (1 for every present key of a Python dict). -/
def countKey {α : Type} (l : List (String × α)) (k : String) : Nat :=
  (keysOf l).count k

/-- The chunk id string `f"{resume_id}_chunk_{i}"` used by `add_resume`. -/
def chunkKey (resume_id : String) (i : Nat) : String :=
  resume_id ++ "_chunk_" ++ toString i

/-- `ResumeStore.add_resume`: writes `{"summary": summary, "metadata": metadata}`
(no `"feedback"` key) into the ledger under `resume_id`, then splits
`resume_text` into chunks and adds each chunk under id `f"{resume_id}_chunk_{i}"`.
The `CharacterTextSplitter` is the deterministic splitting function `split`
(an external collaborator; its output depends only on the text), and the
Chroma `add_texts` call with explicit ids is `setKey` on the chunk id.
Modelled from the spec: the Embedding Index collaborator's write is an upsert —
re-adding an existing chunk id replaces that entry, it does not duplicate it
(spec §4.3: "idempotent per chunk identity (re-upserting the same
`(profile_id, chunk_sequence_number)` replaces, not duplicates)"). -/
def ResumeStore.add_resume (split : String → List String) (s : ResumeStore)
    (resume_id resume_text summary : String) (metadata : Metadata) : ResumeStore :=
  { resumes := setKey s.resumes resume_id
      { summary := summary, metadata := metadata, feedback := none },
    vector_store := ((split resume_text).enum).foldl
      (fun vs ic => setKey vs (chunkKey resume_id ic.1)
        { text := ic.2, resume_id := resume_id, chunk_id := ic.1, metadata := metadata })
      s.vector_store }

/-- `ResumeStore.add_feedback`: returns `False` (and leaves the ledger alone)
when the id is unknown; otherwise initialises the `"feedback"` list if the key
is missing and appends the new event, returning `True`. -/
def ResumeStore.add_feedback (s : Ledger) (resume_id : String)
    (is_positive : Bool) (feedback_text : Option String) (timestamp : Nat) :
    Bool × Ledger :=
  match lookupKey s resume_id with
  | none => (false, s)
  | some r =>
      let event : FeedbackEvent :=
        { timestamp := timestamp, is_positive := is_positive, text := feedback_text }
      let fb := (r.feedback.getD []) ++ [event]
      (true, setKey s resume_id { r with feedback := some fb })

/-- Return value of `ResumeStore.get_feedback_stats` (source field names). -/
structure FeedbackStats where
  total_positive : Nat
  total_negative : Nat
  resume_count_with_feedback : Nat
  total_resume_count : Nat
deriving DecidableEq, Repr

/-- `ResumeStore.get_feedback_stats`: scans every ledger record; a record
participates only when it has a `"feedback"` key, contributing 1 to
`resume_count_with_feedback` and one positive/negative tick per event. -/
def ResumeStore.get_feedback_stats (s : Ledger) : FeedbackStats :=
  let acc := s.foldl
    (fun acc p =>
      match p.2.feedback with
      | none => acc
      | some fbs =>
          (acc.1 + fbs.countP (fun f => f.is_positive),
           acc.2.1 + fbs.countP (fun f => !f.is_positive),
           acc.2.2 + 1))
    ((0, 0, 0) : Nat × Nat × Nat)
  { total_positive := acc.1, total_negative := acc.2.1,
    resume_count_with_feedback := acc.2.2, total_resume_count := s.length }

/-- The external LLM scoring oracle (`LLMChain.run` on the match-score prompt):
given the resume summary and the job description it either raises (an
`Except.error`, e.g. the Ollama endpoint is unreachable) or returns the raw
response text. -/
abbrev OracleFn := String → String → Except String String

/-- Digit run to a number, `'0'..'9'` only (callers check `Char.isDigit`). -/
def digitsToNat (cs : List Char) : Nat :=
  cs.foldl (fun a c => 10 * a + (c.toNat - 48)) 0

/-- Python's `str.strip()`: drop leading and trailing whitespace (ASCII
whitespace; the oracle responses in scope are ASCII). -/
def pyStrip (s : String) : String :=
  String.mk (((s.data.dropWhile Char.isWhitespace).reverse.dropWhile
    Char.isWhitespace).reverse)

/-- Python's `float(s)` on the score path, embedded over `ℚ`: optional
surrounding whitespace, an optional sign, then decimal digits with an optional
fractional part (`"85"`, `"8.5"`, `".5"`, `"85."`). Exotic float syntax the
LLM would not produce (exponents, `inf`/`nan`, digit underscores) is not
modelled; every string outside the modelled grammar parses to `none`, which is
exactly Python's `ValueError` branch. -/
def parsePyFloat (s : String) : Option ℚ :=
  let cs := (pyStrip s).data
  let signAndRest : ℚ × List Char :=
    match cs with
    | '+' :: rest => (1, rest)
    | '-' :: rest => (-1, rest)
    | _ => (1, cs)
  let sign := signAndRest.1
  let cs1 := signAndRest.2
  let intDigits := cs1.takeWhile Char.isDigit
  let rest := cs1.dropWhile Char.isDigit
  match rest with
  | [] =>
      if intDigits.isEmpty then none
      else some (sign * (digitsToNat intDigits : ℚ))
  | '.' :: rest2 =>
      let fracDigits := rest2.takeWhile Char.isDigit
      let rest3 := rest2.dropWhile Char.isDigit
      if rest3.isEmpty then
        if intDigits.isEmpty && fracDigits.isEmpty then none
        else some (sign * ((digitsToNat intDigits : ℚ) +
          (digitsToNat fracDigits : ℚ) / ((10 : ℚ) ^ fracDigits.length)))
      else none
  | _ => none

/-- `cleaned_result = result.strip().replace('%', '')` — strip surrounding
whitespace, then delete every `'%'` (replacing a one-character pattern by the
empty string removes each occurrence). -/
def cleanScore (result : String) : String :=
  String.mk ((pyStrip result).data.filter (fun c => !(c = '%')))

/-- `ResumeStore._calculate_match_score`: asks the oracle, strips the response,
removes `%` signs and parses a float, returning `parsed / 100`; a parse failure
(`ValueError`) or any raised exception (outer `except`) yields `0`. -/
def ResumeStore.calculate_match_score (oracle : OracleFn)
    (resume_summary job_description : String) : ℚ :=
  match oracle resume_summary job_description with
  | .error _ => 0
  | .ok result =>
      match parsePyFloat (cleanScore result) with
      | some v => v / 100
      | none => 0

/-- One entry of the list `match_job_description` returns (source dict keys). -/
structure MatchResult where
  id : String
  summary : String
  match_score : ℚ
  metadata : Metadata
deriving DecidableEq, Repr

/-- The resolution+scoring loop of `match_job_description`: for each recalled
resume id (in the iteration order of the deduplicated id set), look the id up
in the ledger, silently drop ids with no ledger entry, and build the match dict
with the LLM score of the stored summary. -/
def resolveCandidates (oracle : OracleFn) (s : Ledger) (job_description : String)
    (resume_ids : List String) : List MatchResult :=
  resume_ids.filterMap (fun rid =>
    match lookupKey s rid with
    | none => none
    | some resume =>
        some { id := rid, summary := resume.summary,
               match_score := ResumeStore.calculate_match_score oracle
                 resume.summary job_description,
               metadata := resume.metadata })

/-- The comparison `matches.sort(key=lambda x: x["match_score"], reverse=True)`
sorts under: descending score, stable on ties. -/
def scoreDescBool (a b : MatchResult) : Bool :=
  decide (b.match_score ≤ a.match_score)

/-- `ResumeStore.match_job_description`. The vector recall
`similarity_search(job_description, k=10)` plus the `set(...)` deduplication is
an external collaborator plus an unordered container, so the recalled distinct
id list (or the exception the recall raised, caught by the outer `except`
which returns `[]`) is a parameter. Resolution, scoring, the stable descending
sort and the `[:top_n]` truncation are embedded directly. -/
def ResumeStore.match_job_description (oracle : OracleFn)
    (recalled : Except String (List String)) (s : Ledger)
    (job_description : String) (top_n : Nat) : List MatchResult :=
  match recalled with
  | .error _ => []
  | .ok resume_ids =>
      let matchList := resolveCandidates oracle s job_description resume_ids
      (matchList.mergeSort scoreDescBool).take top_n


/-! ### Association-list lemmas (the dict/vector-store algebra) -/

theorem setKey_cons_self {α : Type} (a : String) (b v : α) (rest : List (String × α)) :
    setKey ((a, b) :: rest) a v = (a, v) :: rest := by
  simp [setKey]

theorem setKey_cons_ne {α : Type} {a k : String} (b : α) (v : α) (rest : List (String × α))
    (h : a ≠ k) : setKey ((a, b) :: rest) k v = (a, b) :: setKey rest k v := by
  simp [setKey, h]

theorem lookupKey_setKey_self {α : Type} (l : List (String × α)) (k : String) (v : α) :
    lookupKey (setKey l k v) k = some v := by
  induction l with
  | nil => simp [setKey, lookupKey]
  | cons p rest ih =>
    obtain ⟨a, b⟩ := p
    by_cases h : a = k
    · subst h
      simp [setKey, lookupKey]
    · simp [setKey, h, lookupKey, ih]

theorem lookupKey_setKey_ne {α : Type} (l : List (String × α)) {k k' : String} (v : α)
    (h : k' ≠ k) : lookupKey (setKey l k v) k' = lookupKey l k' := by
  have hkk : ¬ (k = k') := fun h' => h h'.symm
  induction l with
  | nil => simp [setKey, lookupKey, hkk]
  | cons p rest ih =>
    obtain ⟨a, b⟩ := p
    by_cases ha : a = k
    · subst ha
      simp [setKey, lookupKey, hkk]
    · simp only [setKey, ha, if_false, lookupKey]
      by_cases ha' : a = k'
      · simp [ha']
      · simp [ha', ih]

theorem mem_keysOf_setKey {α : Type} (l : List (String × α)) (k k' : String) (v : α) :
    k' ∈ keysOf (setKey l k v) ↔ k' = k ∨ k' ∈ keysOf l := by
  induction l with
  | nil => simp [setKey, keysOf]
  | cons p rest ih =>
    obtain ⟨a, b⟩ := p
    by_cases ha : a = k
    · subst ha
      rw [setKey_cons_self]
      simp only [keysOf, List.map_cons, List.mem_cons]
      tauto
    · rw [setKey_cons_ne b v rest ha]
      simp only [keysOf, List.map_cons, List.mem_cons]
      simp only [keysOf] at ih
      rw [ih]
      tauto

theorem keysOf_setKey_of_mem {α : Type} (l : List (String × α)) {k : String} (v : α)
    (h : k ∈ keysOf l) : keysOf (setKey l k v) = keysOf l := by
  induction l with
  | nil => simp [keysOf] at h
  | cons p rest ih =>
    obtain ⟨a, b⟩ := p
    by_cases ha : a = k
    · subst ha
      simp [setKey, keysOf]
    · simp only [keysOf, List.map_cons, List.mem_cons] at h ih
      rcases h with h | h
      · exact absurd h.symm ha
      · simpa [setKey, ha, keysOf] using ih h

theorem keysOf_setKey_of_not_mem {α : Type} (l : List (String × α)) {k : String} (v : α)
    (h : k ∉ keysOf l) : keysOf (setKey l k v) = keysOf l ++ [k] := by
  induction l with
  | nil => simp [setKey, keysOf]
  | cons p rest ih =>
    obtain ⟨a, b⟩ := p
    simp only [keysOf, List.map_cons, List.mem_cons] at h ih
    push_neg at h
    have ha : a ≠ k := fun h' => h.1 h'.symm
    simpa [setKey, ha, keysOf] using ih h.2

theorem nodup_keysOf_setKey {α : Type} (l : List (String × α)) (k : String) (v : α)
    (h : (keysOf l).Nodup) : (keysOf (setKey l k v)).Nodup := by
  by_cases hm : k ∈ keysOf l
  · rwa [keysOf_setKey_of_mem l v hm]
  · rw [keysOf_setKey_of_not_mem l v hm]
    rw [List.nodup_append]
    refine ⟨h, List.nodup_singleton _, ?_⟩
    intro a ha hb
    simp only [List.mem_singleton] at hb
    exact hm (hb ▸ ha)

theorem lookupKey_eq_none_iff {α : Type} (l : List (String × α)) (k : String) :
    lookupKey l k = none ↔ k ∉ keysOf l := by
  induction l with
  | nil => simp [lookupKey, keysOf]
  | cons p rest ih =>
    obtain ⟨a, b⟩ := p
    by_cases ha : a = k
    · simp [lookupKey, ha, keysOf]
    · have : k ≠ a := fun h' => ha h'.symm
      simp [lookupKey, ha, keysOf, ih, this]

theorem setKey_setKey_same {α : Type} (l : List (String × α)) (k : String) (v : α) :
    setKey (setKey l k v) k v = setKey l k v := by
  induction l with
  | nil => simp [setKey]
  | cons p rest ih =>
    obtain ⟨a, b⟩ := p
    by_cases ha : a = k
    · subst ha
      simp [setKey]
    · simp [setKey, ha, ih]

theorem mem_setKey {α : Type} (l : List (String × α)) (k : String) (v : α) (p : String × α)
    (h : p ∈ setKey l k v) : p = (k, v) ∨ p ∈ l := by
  induction l with
  | nil => simpa [setKey] using h
  | cons q rest ih =>
    obtain ⟨a, b⟩ := q
    by_cases ha : a = k
    · subst ha
      rw [setKey_cons_self] at h
      rcases List.mem_cons.mp h with h | h
      · exact Or.inl h
      · exact Or.inr (List.mem_cons_of_mem _ h)
    · rw [setKey_cons_ne b v rest ha] at h
      rcases List.mem_cons.mp h with h | h
      · exact Or.inr (h ▸ List.mem_cons_self _ _)
      · rcases ih h with h' | h'
        · exact Or.inl h'
        · exact Or.inr (List.mem_cons_of_mem _ h')

/-- A batch of dict writes applied in order (last write to a key wins). -/
def foldSet {α : Type} (ops : List (String × α)) (l : List (String × α)) :
    List (String × α) :=
  ops.foldl (fun acc p => setKey acc p.1 p.2) l

/-- The last value a batch of writes assigns to a key, if any. -/
def lastAssign {α : Type} : List (String × α) → String → Option α
  | [], _ => none
  | p :: ops, key =>
      match lastAssign ops key with
      | some w => some w
      | none => if p.1 = key then some p.2 else none

theorem foldSet_nil {α : Type} (l : List (String × α)) : foldSet [] l = l := rfl

theorem foldSet_cons {α : Type} (p : String × α) (ops : List (String × α))
    (l : List (String × α)) : foldSet (p :: ops) l = foldSet ops (setKey l p.1 p.2) := rfl

theorem lookupKey_foldSet {α : Type} (ops : List (String × α)) (l : List (String × α))
    (k : String) :
    lookupKey (foldSet ops l) k =
      match lastAssign ops k with
      | some v => some v
      | none => lookupKey l k := by
  induction ops generalizing l with
  | nil => simp [foldSet, lastAssign]
  | cons p ops ih =>
    rw [foldSet_cons, ih]
    rcases hla : lastAssign ops k with _ | w
    · simp only [lastAssign, hla]
      by_cases hp : p.1 = k
      · subst hp
        simp [lookupKey_setKey_self]
      · have : k ≠ p.1 := fun h' => hp h'.symm
        simp [hp, lookupKey_setKey_ne _ _ this]
    · simp [lastAssign, hla]

theorem mem_keysOf_foldSet_base {α : Type} (ops : List (String × α))
    (l : List (String × α)) {k : String} (h : k ∈ keysOf l) :
    k ∈ keysOf (foldSet ops l) := by
  induction ops generalizing l with
  | nil => simpa [foldSet] using h
  | cons p ops ih =>
    rw [foldSet_cons]
    exact ih _ ((mem_keysOf_setKey l p.1 k p.2).mpr (Or.inr h))

theorem mem_keysOf_foldSet_ops {α : Type} (ops : List (String × α))
    (l : List (String × α)) {p : String × α} (h : p ∈ ops) :
    p.1 ∈ keysOf (foldSet ops l) := by
  induction ops generalizing l with
  | nil => simp at h
  | cons q ops ih =>
    rw [foldSet_cons]
    rcases List.mem_cons.mp h with h | h
    · subst h
      exact mem_keysOf_foldSet_base ops _
        ((mem_keysOf_setKey l p.1 p.1 p.2).mpr (Or.inl rfl))
    · exact ih _ h

theorem keysOf_foldSet_of_mem {α : Type} (ops : List (String × α))
    (l : List (String × α)) (h : ∀ p ∈ ops, p.1 ∈ keysOf l) :
    keysOf (foldSet ops l) = keysOf l := by
  induction ops generalizing l with
  | nil => simp [foldSet]
  | cons p ops ih =>
    rw [foldSet_cons]
    have hk : p.1 ∈ keysOf l := h p (List.mem_cons_self _ _)
    have hkeys : keysOf (setKey l p.1 p.2) = keysOf l := keysOf_setKey_of_mem l p.2 hk
    have hsub : ∀ q ∈ ops, q.1 ∈ keysOf (setKey l p.1 p.2) := by
      intro q hq
      rw [hkeys]
      exact h q (List.mem_cons_of_mem _ hq)
    rw [ih _ hsub, hkeys]

theorem nodup_keysOf_foldSet {α : Type} (ops : List (String × α))
    (l : List (String × α)) (h : (keysOf l).Nodup) :
    (keysOf (foldSet ops l)).Nodup := by
  induction ops generalizing l with
  | nil => simpa [foldSet] using h
  | cons p ops ih =>
    rw [foldSet_cons]
    exact ih _ (nodup_keysOf_setKey l p.1 p.2 h)

theorem assoc_ext {α : Type} (l l' : List (String × α)) (hnd : (keysOf l).Nodup)
    (hkeys : keysOf l = keysOf l') (hlook : ∀ k, lookupKey l k = lookupKey l' k) :
    l = l' := by
  induction l generalizing l' with
  | nil =>
    cases l' with
    | nil => rfl
    | cons q rest' => simp [keysOf] at hkeys
  | cons p rest ih =>
    cases l' with
    | nil => simp [keysOf] at hkeys
    | cons q rest' =>
      obtain ⟨pk, pv⟩ := p
      obtain ⟨qk, qv⟩ := q
      simp only [keysOf, List.map_cons, List.cons.injEq] at hkeys
      obtain ⟨hk, hrest⟩ := hkeys
      subst hk
      have hv : pv = qv := by
        have := hlook pk
        simpa [lookupKey] using this
      subst hv
      simp only [keysOf, List.map_cons] at hnd
      obtain ⟨hnp0, hnd'⟩ := List.nodup_cons.mp hnd
      have hnp : pk ∉ keysOf rest := hnp0
      have hlk : ∀ k, lookupKey rest k = lookupKey rest' k := by
        intro k
        by_cases hkp : k = pk
        · subst hkp
          have h1 : lookupKey rest k = none := (lookupKey_eq_none_iff rest k).mpr hnp
          have h2 : lookupKey rest' k = none := by
            rw [lookupKey_eq_none_iff]
            show k ∉ List.map Prod.fst rest'
            rw [← hrest]
            exact hnp
          rw [h1, h2]
        · have := hlook k
          have hne : pk ≠ k := fun h' => hkp h'.symm
          simpa [lookupKey, hne] using this
      have hrest' : rest = rest' := ih rest' hnd' hrest hlk
      rw [hrest']

theorem foldSet_idem {α : Type} (ops : List (String × α)) (l : List (String × α))
    (h : (keysOf l).Nodup) : foldSet ops (foldSet ops l) = foldSet ops l := by
  have hnd : (keysOf (foldSet ops l)).Nodup := nodup_keysOf_foldSet ops l h
  apply assoc_ext _ _ (nodup_keysOf_foldSet ops _ hnd)
  · exact keysOf_foldSet_of_mem ops _ (fun p hp => mem_keysOf_foldSet_ops ops _ hp)
  · intro k
    rw [lookupKey_foldSet, lookupKey_foldSet]
    rcases hla : lastAssign ops k with _ | v
    · simp only [hla, lookupKey_foldSet]
    · simp only [hla]

/-! ### Feedback ledger claims -/

/-- C10: `add_feedback` on a profile id absent from the ledger returns the
not-found result `False` and leaves the ledger completely unchanged — the
membership check precedes every mutation. -/
theorem add_feedback_unknown_id (s : Ledger) (resume_id : String) (is_positive : Bool)
    (feedback_text : Option String) (timestamp : Nat)
    (h : lookupKey s resume_id = none) :
    ResumeStore.add_feedback s resume_id is_positive feedback_text timestamp = (false, s) := by
  unfold ResumeStore.add_feedback
  rw [h]

/-- C10 witness: on a ledger holding only profile `"B"`, feedback for the
unknown id `"A"` is rejected and the ledger is untouched. -/
theorem add_feedback_unknown_id_witness :
    lookupKey ([("B", ⟨"sb", [], none⟩)] : Ledger) "A" = none ∧
    ResumeStore.add_feedback ([("B", ⟨"sb", [], none⟩)] : Ledger) "A" true (some "x") 7 =
      (false, ([("B", ⟨"sb", [], none⟩)] : Ledger)) :=
  ⟨by decide, add_feedback_unknown_id _ "A" true (some "x") 7 (by decide)⟩

/-- C3 counterexample: ingest profile `"A"`, record one feedback event, then
ingest `"A"` again. Before the second `add_resume` the ledger holds the event;
afterwards the record has no `"feedback"` key at all — replacement drops the
accumulated feedback history, refuting the claim that it is preserved. -/
theorem add_resume_drops_feedback_counterexample :
    (lookupKey
        (ResumeStore.add_feedback
          (ResumeStore.add_resume (fun t => [t]) ⟨[], []⟩ "A" "full text" "summary one" []).resumes
          "A" true (some "great") 5).2
        "A").map ResumeRecord.feedback =
      some (some [{ timestamp := 5, is_positive := true, text := some "great" }]) ∧
    (lookupKey
        (ResumeStore.add_resume (fun t => [t])
          { resumes := (ResumeStore.add_feedback
              (ResumeStore.add_resume (fun t => [t]) ⟨[], []⟩ "A" "full text" "summary one" []).resumes
              "A" true (some "great") 5).2,
            vector_store := (ResumeStore.add_resume (fun t => [t]) ⟨[], []⟩ "A" "full text" "summary one" []).vector_store }
          "A" "full text" "summary two" []).resumes
        "A").map ResumeRecord.feedback = some none := by
  decide

/-- C3 amended: `add_resume` on an existing profile id replaces the summary and
metadata, but it also resets the feedback history — the freshly written record
has no `"feedback"` key, so the accumulated feedback sequence is dropped, not
preserved. -/
theorem add_resume_resets_feedback (split : String → List String) (s : ResumeStore)
    (resume_id resume_text summary : String) (metadata : Metadata) :
    lookupKey (ResumeStore.add_resume split s resume_id resume_text summary metadata).resumes
        resume_id =
      some { summary := summary, metadata := metadata, feedback := none } :=
  lookupKey_setKey_self s.resumes resume_id _

/-- A sequence of `add_feedback` calls `(resume_id, is_positive, feedback_text,
timestamp)` applied in order (return flags discarded). -/
def applyFeedbacks (ops : List (String × Bool × Option String × Nat)) (s : Ledger) : Ledger :=
  ops.foldl (fun s op => (ResumeStore.add_feedback s op.1 op.2.1 op.2.2.1 op.2.2.2).2) s

/-- States reachable through the store API: whenever a record has a
`"feedback"` key, the list under it is non-empty (`add_resume` writes no key,
`add_feedback` initialises the key and immediately appends). -/
def FeedbackKeyInv (s : Ledger) : Bool :=
  s.all (fun p =>
    match p.2.feedback with
    | none => true
    | some l => !l.isEmpty)

/-- The spec's `positive_count`: total positive-polarity events over all
profiles' feedback sequences. -/
def specPositiveCount (s : Ledger) : Nat :=
  (s.map (fun p => (p.2.feedback.getD []).countP (fun f => f.is_positive))).sum

/-- The spec's `negative_count`: total negative-polarity events over all
profiles' feedback sequences. -/
def specNegativeCount (s : Ledger) : Nat :=
  (s.map (fun p => (p.2.feedback.getD []).countP (fun f => !f.is_positive))).sum

/-- The spec's `profiles_with_feedback_count`: profiles with at least one
feedback event. -/
def specProfilesWithFeedback (s : Ledger) : Nat :=
  s.countP (fun p => !(p.2.feedback.getD []).isEmpty)

/-- Profiles whose record carries a `"feedback"` key (what the code counts). -/
def specKeyCount (s : Ledger) : Nat :=
  s.countP (fun p => p.2.feedback.isSome)

theorem get_feedback_stats_foldl (s : Ledger) (a b c : Nat) :
    s.foldl
      (fun acc p =>
        match p.2.feedback with
        | none => acc
        | some fbs =>
            (acc.1 + fbs.countP (fun f => f.is_positive),
             acc.2.1 + fbs.countP (fun f => !f.is_positive),
             acc.2.2 + 1))
      ((a, b, c) : Nat × Nat × Nat) =
    (a + specPositiveCount s, b + specNegativeCount s, c + specKeyCount s) := by
  induction s generalizing a b c with
  | nil => simp [specPositiveCount, specNegativeCount, specKeyCount]
  | cons p rest ih =>
    rcases hf : p.2.feedback with _ | fbs
    · simp only [List.foldl_cons, hf]
      rw [ih]
      simp [specPositiveCount, specNegativeCount, specKeyCount, hf]
    · simp only [List.foldl_cons, hf]
      rw [ih]
      simp only [specPositiveCount, specNegativeCount, specKeyCount, List.map_cons,
        List.sum_cons, List.countP_cons, hf]
      simp [Nat.add_assoc, Nat.add_comm, Nat.add_left_comm]

theorem get_feedback_stats_eq (s : Ledger) :
    ResumeStore.get_feedback_stats s =
      { total_positive := specPositiveCount s, total_negative := specNegativeCount s,
        resume_count_with_feedback := specKeyCount s, total_resume_count := s.length } := by
  unfold ResumeStore.get_feedback_stats
  rw [get_feedback_stats_foldl s 0 0 0]
  simp

theorem specKeyCount_of_inv (s : Ledger) (h : FeedbackKeyInv s = true) :
    specKeyCount s = specProfilesWithFeedback s := by
  unfold specKeyCount specProfilesWithFeedback
  apply List.countP_congr
  intro p hp
  have hinv := (List.all_eq_true.mp h) p hp
  rcases hf : p.2.feedback with _ | l
  · simp [hf]
  · rw [hf] at hinv
    simp only at hinv
    simp [hf, hinv]

theorem feedbackKeyInv_add_feedback (s : Ledger) (resume_id : String) (is_positive : Bool)
    (feedback_text : Option String) (timestamp : Nat) (h : FeedbackKeyInv s = true) :
    FeedbackKeyInv
      (ResumeStore.add_feedback s resume_id is_positive feedback_text timestamp).2 = true := by
  unfold ResumeStore.add_feedback
  rcases hl : lookupKey s resume_id with _ | r
  · simpa using h
  · simp only []
    rw [FeedbackKeyInv, List.all_eq_true]
    intro p hp
    rcases mem_setKey _ _ _ _ hp with hq | hq
    · subst hq
      simp
    · exact (List.all_eq_true.mp h) p hq

theorem feedbackKeyInv_applyFeedbacks (ops : List (String × Bool × Option String × Nat))
    (s : Ledger) (h : FeedbackKeyInv s = true) :
    FeedbackKeyInv (applyFeedbacks ops s) = true := by
  induction ops generalizing s with
  | nil => simpa [applyFeedbacks] using h
  | cons op ops ih =>
    exact ih _ (feedbackKeyInv_add_feedback s op.1 op.2.1 op.2.2.1 op.2.2.2 h)

/-- C9: after any finite sequence of `add_feedback` calls (interleaved over any
profile ids) on a ledger reachable through the store API, `get_feedback_stats`
returns exactly: the number of stored positive events, the number of stored
negative events, the number of profiles with at least one feedback event, and
the total number of profiles. -/
theorem get_feedback_stats_spec (s : Ledger)
    (ops : List (String × Bool × Option String × Nat)) (h : FeedbackKeyInv s = true) :
    ResumeStore.get_feedback_stats (applyFeedbacks ops s) =
      { total_positive := specPositiveCount (applyFeedbacks ops s),
        total_negative := specNegativeCount (applyFeedbacks ops s),
        resume_count_with_feedback := specProfilesWithFeedback (applyFeedbacks ops s),
        total_resume_count := (applyFeedbacks ops s).length } := by
  rw [get_feedback_stats_eq,
    specKeyCount_of_inv _ (feedbackKeyInv_applyFeedbacks ops s h)]

/-- C9 witness: the spec scenario — `append_feedback("A", true, "great match")`
then `append_feedback("A", false, None)` on a ledger holding only `"A"` yields
counts `{1, 1, 1, 1}`. -/
theorem get_feedback_stats_spec_witness :
    FeedbackKeyInv ([("A", ⟨"sa", [], none⟩)] : Ledger) = true ∧
    ResumeStore.get_feedback_stats
        (applyFeedbacks [("A", true, some "great match", 1), ("A", false, none, 2)]
          ([("A", ⟨"sa", [], none⟩)] : Ledger)) =
      { total_positive := 1, total_negative := 1, resume_count_with_feedback := 1,
        total_resume_count := 1 } :=
  ⟨by decide,
    (get_feedback_stats_spec ([("A", ⟨"sa", [], none⟩)] : Ledger)
      [("A", true, some "great match", 1), ("A", false, none, 2)] (by decide)).trans
      (by decide)⟩

/-! ### Ingestion idempotence (Embedding Index) -/

/-- The batch of chunk writes one `add_resume` call issues to the vector
store: id `f"{resume_id}_chunk_{i}"` mapped to the i-th chunk entry. -/
def chunkOps (split : String → List String) (resume_id resume_text : String)
    (metadata : Metadata) : List (String × ChunkEntry) :=
  ((split resume_text).enum).map (fun ic =>
    (chunkKey resume_id ic.1,
     { text := ic.2, resume_id := resume_id, chunk_id := ic.1, metadata := metadata }))

theorem add_resume_vector_eq (split : String → List String) (s : ResumeStore)
    (resume_id resume_text summary : String) (metadata : Metadata) :
    (ResumeStore.add_resume split s resume_id resume_text summary metadata).vector_store =
      foldSet (chunkOps split resume_id resume_text metadata) s.vector_store := by
  unfold ResumeStore.add_resume foldSet chunkOps
  rw [List.foldl_map]

theorem resumeStore_ext (a b : ResumeStore) (h1 : a.resumes = b.resumes)
    (h2 : a.vector_store = b.vector_store) : a = b := by
  cases a
  cases b
  simp only at h1 h2
  rw [h1, h2]

theorem add_resume_add_resume (split : String → List String) (s : ResumeStore)
    (resume_id resume_text summary : String) (metadata : Metadata)
    (h : (keysOf s.vector_store).Nodup) :
    ResumeStore.add_resume split
        (ResumeStore.add_resume split s resume_id resume_text summary metadata)
        resume_id resume_text summary metadata =
      ResumeStore.add_resume split s resume_id resume_text summary metadata := by
  apply resumeStore_ext
  · show setKey (setKey s.resumes resume_id _) resume_id _ = setKey s.resumes resume_id _
    exact setKey_setKey_same s.resumes resume_id _
  · rw [add_resume_vector_eq, add_resume_vector_eq]
    exact foldSet_idem _ s.vector_store h

/-- C6: ingestion is idempotent by chunk identity. Starting from any store
whose vector index has no duplicate ids, running the same `add_resume` call
`n ≥ 1` times produces exactly the state of running it once, and the index
then holds exactly one chunk per sequence number of the split text for that
profile id. -/
theorem add_resume_iterate_idempotent (split : String → List String) (s : ResumeStore)
    (resume_id resume_text summary : String) (metadata : Metadata) (n : Nat)
    (h1 : (keysOf s.vector_store).Nodup) (h2 : 1 ≤ n) :
    (fun st => ResumeStore.add_resume split st resume_id resume_text summary metadata)^[n] s =
      ResumeStore.add_resume split s resume_id resume_text summary metadata ∧
    ∀ i < (split resume_text).length,
      countKey
        ((fun st => ResumeStore.add_resume split st resume_id resume_text summary metadata)^[n]
            s).vector_store
        (chunkKey resume_id i) = 1 := by
  have hiter :
      (fun st => ResumeStore.add_resume split st resume_id resume_text summary metadata)^[n] s =
        ResumeStore.add_resume split s resume_id resume_text summary metadata := by
    induction n with
    | zero => exact absurd h2 (by simp)
    | succ m ih =>
      rcases Nat.eq_zero_or_pos m with hm | hm
      · subst hm
        simp
      · rw [Function.iterate_succ_apply', ih hm]
        exact add_resume_add_resume split s resume_id resume_text summary metadata h1
  refine ⟨hiter, ?_⟩
  intro i hi
  rw [hiter, add_resume_vector_eq]
  have hmem : chunkKey resume_id i ∈ keysOf (foldSet
      (chunkOps split resume_id resume_text metadata) s.vector_store) := by
    have hin : ((i, (split resume_text)[i]) : Nat × String) ∈
        (split resume_text).enum := by
      have hlen : i < (split resume_text).enum.length := by
        simpa [List.enum_length] using hi
      have := List.getElem_enum (split resume_text) i hlen
      rw [← this]
      exact List.getElem_mem _
    have hop := List.mem_map_of_mem (l := (split resume_text).enum)
      (fun ic => (chunkKey resume_id ic.1,
        ({ text := ic.2, resume_id := resume_id, chunk_id := ic.1,
           metadata := metadata } : ChunkEntry))) hin
    exact mem_keysOf_foldSet_ops _ _ hop
  have hnd : (keysOf (foldSet (chunkOps split resume_id resume_text metadata)
      s.vector_store)).Nodup :=
    nodup_keysOf_foldSet _ _ h1
  exact List.count_eq_one_of_mem hnd hmem

/-- C6 witness: a two-chunk splitter run 3 times over the empty store produces
the single-run state with exactly one chunk per sequence number. -/
theorem add_resume_iterate_idempotent_witness :
    (keysOf (([] : VectorStore))).Nodup ∧ 1 ≤ 3 ∧
    ((fun st => ResumeStore.add_resume (fun t => [t.take 4, t.drop 4]) st "A" "abcdefgh"
        "sumA" [])^[3] ⟨[], []⟩ =
      ResumeStore.add_resume (fun t => [t.take 4, t.drop 4]) ⟨[], []⟩ "A" "abcdefgh"
        "sumA" [] ∧
    ∀ i < ((fun (t : String) => [t.take 4, t.drop 4]) "abcdefgh").length,
      countKey
        (((fun st => ResumeStore.add_resume (fun t => [t.take 4, t.drop 4]) st "A" "abcdefgh"
            "sumA" [])^[3] ⟨[], []⟩).vector_store)
        (chunkKey "A" i) = 1) :=
  ⟨by decide, by decide,
    add_resume_iterate_idempotent (fun t => [t.take 4, t.drop 4]) ⟨[], []⟩ "A" "abcdefgh"
      "sumA" [] 3 (by decide) (by decide)⟩

/-! ### Matcher/Ranker claims -/

theorem calculate_match_score_of_error (oracle : OracleFn) (a b e : String)
    (h : oracle a b = Except.error e) :
    ResumeStore.calculate_match_score oracle a b = 0 := by
  unfold ResumeStore.calculate_match_score
  rw [h]

theorem calculate_match_score_of_ok_none (oracle : OracleFn) (a b resp : String)
    (h : oracle a b = Except.ok resp) (hp : parsePyFloat (cleanScore resp) = none) :
    ResumeStore.calculate_match_score oracle a b = 0 := by
  unfold ResumeStore.calculate_match_score
  rw [h]
  simp [hp]

theorem calculate_match_score_of_ok_some (oracle : OracleFn) (a b resp : String) (v : ℚ)
    (h : oracle a b = Except.ok resp) (hp : parsePyFloat (cleanScore resp) = some v) :
    ResumeStore.calculate_match_score oracle a b = v / 100 := by
  unfold ResumeStore.calculate_match_score
  rw [h]
  simp [hp]

theorem scoreDescBool_trans (a b c : MatchResult) (hab : scoreDescBool a b = true)
    (hbc : scoreDescBool b c = true) : scoreDescBool a c = true := by
  simp only [scoreDescBool, decide_eq_true_eq] at *
  exact le_trans hbc hab

theorem scoreDescBool_total (a b : MatchResult) :
    (scoreDescBool a b || scoreDescBool b a) = true := by
  simp only [scoreDescBool, Bool.or_eq_true, decide_eq_true_eq]
  exact le_total b.match_score a.match_score

theorem mem_resolveCandidates (oracle : OracleFn) (s : Ledger) (job_description : String)
    (ids : List String) (r : MatchResult)
    (h : r ∈ resolveCandidates oracle s job_description ids) :
    (lookupKey s r.id).isSome = true ∧
    r.match_score = ResumeStore.calculate_match_score oracle r.summary job_description := by
  unfold resolveCandidates at h
  obtain ⟨rid, _, hf⟩ := List.mem_filterMap.mp h
  rcases hl : lookupKey s rid with _ | resume
  · rw [hl] at hf
    simp at hf
  · rw [hl] at hf
    simp only [Option.some.injEq] at hf
    subst hf
    simp [hl]

/-- Filtering a prefix: the `p`-elements of `l.take n` are an initial segment
of the `p`-elements of `l`. -/
theorem filter_take (l : List α) (n : Nat) (p : α → Bool) :
    (l.take n).filter p = (l.filter p).take ((l.take n).countP p) := by
  induction l generalizing n with
  | nil => simp
  | cons x xs ih =>
    cases n with
    | zero => simp
    | succ m =>
      rcases hp : p x with _ | _
      · simpa [List.filter_cons, List.countP_cons, hp] using ih m
      · simpa [List.filter_cons, List.countP_cons, hp] using ih m

/-- A stable sort leaves every tied class in its original order: filtering on
any predicate whose elements are pairwise tied commutes with `mergeSort`. -/
theorem mergeSort_filter_tied (l : List MatchResult) (p : MatchResult → Bool)
    (htied : ∀ a b, p a = true → p b = true → scoreDescBool a b = true) :
    (l.mergeSort scoreDescBool).filter p = l.filter p := by
  have hsub : (l.filter p).Sublist (l.mergeSort scoreDescBool) :=
    List.sublist_mergeSort scoreDescBool_trans scoreDescBool_total
      (List.pairwise_of_forall_mem_list (fun a ha b hb =>
        htied a b (List.of_mem_filter ha) (List.of_mem_filter hb)))
      (List.filter_sublist l)
  have hperm : ((l.mergeSort scoreDescBool).filter p).Perm (l.filter p) :=
    (List.mergeSort_perm l scoreDescBool).filter p
  have hsub2 : ((l.filter p).filter p).Sublist ((l.mergeSort scoreDescBool).filter p) :=
    hsub.filter p
  rw [List.filter_eq_self.mpr (fun a ha => List.of_mem_filter ha)] at hsub2
  exact (hsub2.eq_of_length (hperm.length_eq.symm)).symm

/-- C1: `match_job_description` returns at most `top_n` results; every
returned id resolves in the ledger; results are sorted by non-increasing
score; and every tied score class appears in the insertion order of the
resolution stage (an initial segment of the resolved candidate list filtered
to that score). -/
theorem match_job_description_spec (oracle : OracleFn)
    (recalled : Except String (List String)) (s : Ledger) (job_description : String)
    (top_n : Nat) :
    (ResumeStore.match_job_description oracle recalled s job_description top_n).length ≤ top_n ∧
    (∀ r ∈ ResumeStore.match_job_description oracle recalled s job_description top_n,
      (lookupKey s r.id).isSome = true) ∧
    (ResumeStore.match_job_description oracle recalled s job_description top_n).Pairwise
      (fun a b => b.match_score ≤ a.match_score) ∧
    (∀ q : ℚ, ∃ m,
      (ResumeStore.match_job_description oracle recalled s job_description top_n).filter
          (fun r => decide (r.match_score = q)) =
        ((resolveCandidates oracle s job_description (recalled.toOption.getD [])).filter
          (fun r => decide (r.match_score = q))).take m) := by
  rcases recalled with e | ids
  · refine ⟨?_, ?_, ?_, ?_⟩ <;>
      simp [ResumeStore.match_job_description, resolveCandidates]
  · unfold ResumeStore.match_job_description
    simp only [Except.toOption, Option.getD_some]
    refine ⟨?_, ?_, ?_, ?_⟩
    · rw [List.length_take]
      exact min_le_left _ _
    · intro r hr
      have hr2 : r ∈ (resolveCandidates oracle s job_description ids).mergeSort
          scoreDescBool := List.mem_of_mem_take hr
      have hr3 : r ∈ resolveCandidates oracle s job_description ids :=
        (List.mergeSort_perm _ scoreDescBool).mem_iff.mp hr2
      exact (mem_resolveCandidates oracle s job_description ids r hr3).1
    · have hs := List.sorted_mergeSort scoreDescBool_trans scoreDescBool_total
        (resolveCandidates oracle s job_description ids)
      have hs2 := List.Pairwise.sublist (List.take_sublist top_n _) hs
      exact hs2.imp (fun h => by simpa [scoreDescBool] using h)
    · intro q
      refine ⟨(((resolveCandidates oracle s job_description ids).mergeSort
          scoreDescBool).take top_n).countP (fun r => decide (r.match_score = q)), ?_⟩
      rw [filter_take, mergeSort_filter_tied]
      intro a b ha hb
      simp only [decide_eq_true_eq] at ha hb
      simp [scoreDescBool, ha, hb]

/-- C2 counterexample: an oracle for which every call raises (the service is
down for the whole operation). `match_job_description` does not report any
failure: it returns a normal, non-empty ranking in which the resolved
candidate is scored 0 — indistinguishable from a true zero-relevance match,
refuting the claim that a whole-operation oracle outage is surfaced as an
operation-level failure. -/
theorem match_oracle_down_counterexample :
    ResumeStore.match_job_description (fun _ _ => Except.error "connection refused")
        (Except.ok ["A"]) ([("A", ⟨"sumA", [], none⟩)] : Ledger) "job" 5 =
      [{ id := "A", summary := "sumA", match_score := 0, metadata := [] }] := by
  have h1 : resolveCandidates (fun _ _ => Except.error "connection refused")
      ([("A", ⟨"sumA", [], none⟩)] : Ledger) "job" ["A"] =
      [{ id := "A", summary := "sumA", match_score := 0, metadata := [] }] := rfl
  simp only [ResumeStore.match_job_description]
  rw [h1, List.mergeSort_singleton]
  rfl

/-- C2 amended: when every oracle call fails, `match_job_description` silently
degrades instead of failing — every resolved candidate is scored 0 and the
resolution-order list, truncated to `top_n`, is returned as a normal result
(and a recall-stage exception is likewise swallowed into an empty list). The
caller cannot distinguish an oracle outage from genuine zero-relevance
matches. -/
theorem match_oracle_down_degrades (oracle : OracleFn) (ids : List String) (s : Ledger)
    (job_description : String) (top_n : Nat)
    (h : ∀ a b, ∃ e, oracle a b = Except.error e) :
    ResumeStore.match_job_description oracle (Except.ok ids) s job_description top_n =
      (resolveCandidates oracle s job_description ids).take top_n ∧
    ∀ r ∈ ResumeStore.match_job_description oracle (Except.ok ids) s job_description top_n,
      r.match_score = 0 := by
  have hzero : ∀ r ∈ resolveCandidates oracle s job_description ids, r.match_score = 0 := by
    intro r hr
    have := (mem_resolveCandidates oracle s job_description ids r hr).2
    obtain ⟨e, he⟩ := h r.summary job_description
    rw [this]
    exact calculate_match_score_of_error oracle _ _ e he
  have hsorted : (resolveCandidates oracle s job_description ids).Pairwise
      (fun a b => scoreDescBool a b = true) :=
    List.pairwise_of_forall_mem_list (fun a ha b hb => by
      simp [scoreDescBool, hzero a ha, hzero b hb])
  have heq : ResumeStore.match_job_description oracle (Except.ok ids) s job_description
      top_n = (resolveCandidates oracle s job_description ids).take top_n := by
    simp only [ResumeStore.match_job_description]
    rw [List.mergeSort_of_sorted hsorted]
  refine ⟨heq, ?_⟩
  intro r hr
  rw [heq] at hr
  exact hzero r (List.mem_of_mem_take hr)

/-- C2 amended witness: a concrete down oracle over a one-profile ledger. -/
theorem match_oracle_down_degrades_witness :
    ResumeStore.match_job_description (fun _ _ => Except.error "refused")
        (Except.ok ["A", "B"]) ([("A", ⟨"sumA", [], none⟩)] : Ledger) "job" 5 =
      (resolveCandidates (fun _ _ => Except.error "refused")
        ([("A", ⟨"sumA", [], none⟩)] : Ledger) "job" ["A", "B"]).take 5 ∧
    ∀ r ∈ ResumeStore.match_job_description (fun _ _ => Except.error "refused")
        (Except.ok ["A", "B"]) ([("A", ⟨"sumA", [], none⟩)] : Ledger) "job" 5,
      r.match_score = 0 :=
  match_oracle_down_degrades (fun _ _ => Except.error "refused") ["A", "B"]
    ([("A", ⟨"sumA", [], none⟩)] : Ledger) "job" 5 (fun _ _ => ⟨"refused", rfl⟩)

/-- C4: a per-candidate parse failure is isolated. When `top_n` covers the
resolved candidates, the returned ranking is a permutation of all of them (no
candidate is dropped and no operation-level error occurs), and any candidate
whose oracle response does not parse as a number carries score exactly 0. -/
theorem match_malformed_isolated (oracle : OracleFn) (ids : List String) (s : Ledger)
    (job_description : String) (top_n : Nat)
    (h : (resolveCandidates oracle s job_description ids).length ≤ top_n) :
    (ResumeStore.match_job_description oracle (Except.ok ids) s job_description top_n).Perm
      (resolveCandidates oracle s job_description ids) ∧
    ∀ r ∈ ResumeStore.match_job_description oracle (Except.ok ids) s job_description top_n,
      ∀ resp, oracle r.summary job_description = Except.ok resp →
        parsePyFloat (cleanScore resp) = none → r.match_score = 0 := by
  have heq : ResumeStore.match_job_description oracle (Except.ok ids) s job_description
      top_n = (resolveCandidates oracle s job_description ids).mergeSort scoreDescBool := by
    unfold ResumeStore.match_job_description
    exact List.take_of_length_le (by rw [List.length_mergeSort]; exact h)
  constructor
  · rw [heq]
    exact List.mergeSort_perm _ _
  · intro r hr resp hresp hparse
    rw [heq] at hr
    have hr2 : r ∈ resolveCandidates oracle s job_description ids :=
      (List.mergeSort_perm _ scoreDescBool).mem_iff.mp hr
    have hscore := (mem_resolveCandidates oracle s job_description ids r hr2).2
    rw [hscore]
    exact calculate_match_score_of_ok_none oracle _ _ resp hresp hparse

/-- C4 witness: two resolved candidates, one with an unparseable response
(`"N/A"`), one with `"80"`; both survive, the malformed one at score 0. -/
theorem match_malformed_isolated_witness :
    (resolveCandidates (fun su _ => if su = "sumA" then Except.ok "N/A" else Except.ok "80")
        ([("A", ⟨"sumA", [], none⟩), ("B", ⟨"sumB", [], none⟩)] : Ledger) "job"
        ["A", "B"]).length ≤ 5 ∧
    (ResumeStore.match_job_description
        (fun su _ => if su = "sumA" then Except.ok "N/A" else Except.ok "80")
        (Except.ok ["A", "B"])
        ([("A", ⟨"sumA", [], none⟩), ("B", ⟨"sumB", [], none⟩)] : Ledger) "job" 5).Perm
      (resolveCandidates (fun su _ => if su = "sumA" then Except.ok "N/A" else Except.ok "80")
        ([("A", ⟨"sumA", [], none⟩), ("B", ⟨"sumB", [], none⟩)] : Ledger) "job" ["A", "B"]) ∧
    ∀ r ∈ ResumeStore.match_job_description
        (fun su _ => if su = "sumA" then Except.ok "N/A" else Except.ok "80")
        (Except.ok ["A", "B"])
        ([("A", ⟨"sumA", [], none⟩), ("B", ⟨"sumB", [], none⟩)] : Ledger) "job" 5,
      ∀ resp, (if r.summary = "sumA" then Except.ok "N/A" else Except.ok "80" :
          Except String String) = Except.ok resp →
        parsePyFloat (cleanScore resp) = none → r.match_score = 0 :=
  ⟨by decide,
    match_malformed_isolated
      (fun su _ => if su = "sumA" then Except.ok "N/A" else Except.ok "80") ["A", "B"]
      ([("A", ⟨"sumA", [], none⟩), ("B", ⟨"sumB", [], none⟩)] : Ledger) "job" 5 (by decide)⟩

/-- C5 counterexample: an oracle answering `"150"` yields a stored match score
of `3/2`, outside `[0,1]` — the raw oracle number is divided by 100 but never
clamped, refuting the claim that the score always lies in `[0,1]`. -/
theorem calculate_match_score_not_clamped :
    ResumeStore.calculate_match_score (fun _ _ => Except.ok "150") "s" "j" = 3 / 2 ∧
    ¬(ResumeStore.calculate_match_score (fun _ _ => Except.ok "150") "s" "j" ≤ 1) := by
  have hp : parsePyFloat (cleanScore "150") = some (1 * ((150 : ℕ) : ℚ)) := rfl
  have hc : ResumeStore.calculate_match_score (fun _ _ => Except.ok "150") "s" "j" =
      (1 * ((150 : ℕ) : ℚ)) / 100 :=
    calculate_match_score_of_ok_some _ "s" "j" "150" _ rfl hp
  rw [hc]
  norm_num

/-- C5 amended: the score equals the parsed oracle number divided by 100, and
lies in `[0,1]` exactly when the oracle's numeric value lies in `[0,100]`
(unparseable responses and raised calls score 0); out-of-range oracle numbers
are not clamped and land outside `[0,1]`. -/
theorem calculate_match_score_range (oracle : OracleFn)
    (resume_summary job_description : String)
    (h : ∀ resp, oracle resume_summary job_description = Except.ok resp →
      ∀ v, parsePyFloat (cleanScore resp) = some v → 0 ≤ v ∧ v ≤ 100) :
    (∀ resp v, oracle resume_summary job_description = Except.ok resp →
      parsePyFloat (cleanScore resp) = some v →
      ResumeStore.calculate_match_score oracle resume_summary job_description = v / 100) ∧
    0 ≤ ResumeStore.calculate_match_score oracle resume_summary job_description ∧
    ResumeStore.calculate_match_score oracle resume_summary job_description ≤ 1 := by
  rcases ho : oracle resume_summary job_description with e | result
  · have h0 := calculate_match_score_of_error oracle resume_summary job_description e ho
    refine ⟨fun resp v heq _ => ?_, by simp [h0], by simp [h0]⟩
    exact absurd heq (by simp)
  · rcases hp : parsePyFloat (cleanScore result) with _ | v
    · have h0 := calculate_match_score_of_ok_none oracle resume_summary job_description
        result ho hp
      refine ⟨fun resp v heq hpr => ?_, by simp [h0], by simp [h0]⟩
      rw [Except.ok.injEq] at heq
      subst heq
      rw [hp] at hpr
      exact absurd hpr (by simp)
    · have hv := h result ho v hp
      have hcv := calculate_match_score_of_ok_some oracle resume_summary job_description
        result v ho hp
      refine ⟨fun resp w heq hpr => ?_, ?_, ?_⟩
      · rw [Except.ok.injEq] at heq
        subst heq
        rw [hp, Option.some.injEq] at hpr
        rw [hcv, hpr]
      · rw [hcv]
        exact div_nonneg hv.1 (by norm_num)
      · rw [hcv, div_le_one (by norm_num)]
        linarith [hv.2]

/-- C5 amended witness: an oracle answering `" 85% "` scores `17/20 ∈ [0,1]`. -/
theorem calculate_match_score_range_witness :
    0 ≤ ResumeStore.calculate_match_score (fun _ _ => Except.ok " 85% ") "s" "j" ∧
    ResumeStore.calculate_match_score (fun _ _ => Except.ok " 85% ") "s" "j" ≤ 1 :=
  (calculate_match_score_range (fun _ _ => Except.ok " 85% ") "s" "j"
    (by
      intro resp heq v hv
      injection heq with heq
      subst heq
      rw [show parsePyFloat (cleanScore " 85% ") = some (1 * ((85 : ℕ) : ℚ)) from rfl,
        Option.some.injEq] at hv
      subst hv
      norm_num)).2

/-! ### Admissibility classifier (`ResumeValidator.is_resume`) -/

namespace ResumeValidator

/-- Python's `str.lower()` (the inputs in scope are ASCII). -/
def pyLower (s : String) : String := String.mk (s.data.map Char.toLower)

/-- `re`'s word character class `\w` (ASCII scope): alphanumeric or `_`. -/
def isWordChar (c : Char) : Bool := c.isAlphanum || c = '_'

/-- Whether position `i` of the text holds a word character (out of range
counts as non-word). -/
def wordAt (cs : List Char) (i : Nat) : Bool :=
  match cs[i]? with
  | some c => isWordChar c
  | none => false

/-- `re`'s `\b` at position `i` (between index `i-1` and `i`): exactly one of
the two neighbouring positions is a word character. -/
def boundaryAt (cs : List Char) (i : Nat) : Bool :=
  (if i = 0 then false else wordAt cs (i - 1)) != wordAt cs i

/-- `re.search(rf"\b{pattern}\b", text)` for a literal pattern: the pattern
occurs at some position with word boundaries on both sides. -/
def matchWordAt (cs pat : List Char) (i : Nat) : Bool :=
  boundaryAt cs i && pat.isPrefixOf (cs.drop i) && boundaryAt cs (i + pat.length)

/-- Whether `re.search(rf"\b{pat}\b", cs)` finds a match anywhere. -/
def searchWordPattern (cs pat : List Char) : Bool :=
  (List.range (cs.length + 1)).any (fun i => matchWordAt cs pat i)

/-- One `+= 1` per list pattern found somewhere in the text (the source's
`for pattern in cls.XXX: if re.search(...): matches += 1` loops). -/
def countPatternHits (cs : List Char) (pats : List String) : Nat :=
  pats.countP (fun p => searchWordPattern cs p.data)

/-- `RESUME_SECTIONS` of the source (literal patterns). -/
def RESUME_SECTIONS : List String :=
  ["experience", "employment", "work history", "professional experience",
   "education", "academic background", "qualification",
   "skills", "technical skills", "competencies", "expertise",
   "projects", "achievements", "accomplishments",
   "certifications", "professional development",
   "summary", "profile", "objective", "career objective"]

/-- `JOB_TITLES` of the source. -/
def JOB_TITLES : List String :=
  ["engineer", "developer", "manager", "analyst", "specialist",
   "director", "administrator", "coordinator", "lead", "architect",
   "consultant", "designer", "technician", "scientist", "officer"]

/-- `TECH_TERMS` of the source (`c\+\+` is the literal `c++`). -/
def TECH_TERMS : List String :=
  ["python", "java", "javascript", "c++", "html", "css", "sql",
   "react", "node", "azure", "aws", "cloud", "docker", "kubernetes",
   "agile", "scrum", "jira", "git", "linux", "windows", "database"]

/-- `[a-z]` of the date regexes. -/
def isAsciiLower (c : Char) : Bool := 'a' ≤ c && c ≤ 'z'

/-- `\d{n}` starting at `i`: exactly `n` digits, else fail. -/
def matchExactDigits (cs : List Char) (i n : Nat) : Option Nat :=
  let seg := (cs.drop i).take n
  if seg.length = n && seg.all Char.isDigit then some (i + n) else none

/-- A greedy star (`\s*`, `[a-z]*`). In every date regex the atom after the
star cannot match a character the star accepts, so greedy matching without
backtracking is exact. -/
def skipMany (p : Char → Bool) (cs : List Char) (i : Nat) : Nat :=
  i + ((cs.drop i).takeWhile p).length

/-- A literal atom at `i`. -/
def matchLit (cs : List Char) (lit : List Char) (i : Nat) : Option Nat :=
  if lit.isPrefixOf (cs.drop i) then some (i + lit.length) else none

/-- `\b` as a zero-width assertion. -/
def reqBoundary (cs : List Char) (i : Nat) : Option Nat :=
  if boundaryAt cs i then some i else none

/-- The month alternation `(jan|feb|...|dec)` — twelve mutually exclusive
three-letter literals. -/
def MONTHS : List String :=
  ["jan", "feb", "mar", "apr", "may", "jun", "jul", "aug", "sep", "oct", "nov", "dec"]

/-- Consume one month name (all alternatives are 3 characters). -/
def matchMonth (cs : List Char) (i : Nat) : Option Nat :=
  if MONTHS.any (fun m => m.data.isPrefixOf (cs.drop i)) then some (i + 3) else none

/-- `\b(jan|feb|...|dec)[a-z]* \d{4}\b`. -/
def datePat1 (cs : List Char) (i : Nat) : Option Nat := do
  let i ← reqBoundary cs i
  let i ← matchMonth cs i
  let i := skipMany isAsciiLower cs i
  let i ← matchLit cs [' '] i
  let i ← matchExactDigits cs i 4
  reqBoundary cs i

/-- `\b\d{2}/\d{4}\b`. -/
def datePat2 (cs : List Char) (i : Nat) : Option Nat := do
  let i ← reqBoundary cs i
  let i ← matchExactDigits cs i 2
  let i ← matchLit cs ['/'] i
  let i ← matchExactDigits cs i 4
  reqBoundary cs i

/-- `\b\d{4}-\d{2}\b`. -/
def datePat3 (cs : List Char) (i : Nat) : Option Nat := do
  let i ← reqBoundary cs i
  let i ← matchExactDigits cs i 4
  let i ← matchLit cs ['-'] i
  let i ← matchExactDigits cs i 2
  reqBoundary cs i

/-- `\b\d{4}\s*-\s*present\b`. -/
def datePat4 (cs : List Char) (i : Nat) : Option Nat := do
  let i ← reqBoundary cs i
  let i ← matchExactDigits cs i 4
  let i := skipMany Char.isWhitespace cs i
  let i ← matchLit cs ['-'] i
  let i := skipMany Char.isWhitespace cs i
  let i ← matchLit cs "present".data i
  reqBoundary cs i

/-- `\b\d{4}\s*-\s*\d{4}\b`. -/
def datePat5 (cs : List Char) (i : Nat) : Option Nat := do
  let i ← reqBoundary cs i
  let i ← matchExactDigits cs i 4
  let i := skipMany Char.isWhitespace cs i
  let i ← matchLit cs ['-'] i
  let i := skipMany Char.isWhitespace cs i
  let i ← matchExactDigits cs i 4
  reqBoundary cs i

/-- `\b\d{4}\s*to\s*\d{4}\b`. -/
def datePat6 (cs : List Char) (i : Nat) : Option Nat := do
  let i ← reqBoundary cs i
  let i ← matchExactDigits cs i 4
  let i := skipMany Char.isWhitespace cs i
  let i ← matchLit cs "to".data i
  let i := skipMany Char.isWhitespace cs i
  let i ← matchExactDigits cs i 4
  reqBoundary cs i

/-- `\b\d{4}\s*to\s*present\b`. -/
def datePat7 (cs : List Char) (i : Nat) : Option Nat := do
  let i ← reqBoundary cs i
  let i ← matchExactDigits cs i 4
  let i := skipMany Char.isWhitespace cs i
  let i ← matchLit cs "to".data i
  let i := skipMany Char.isWhitespace cs i
  let i ← matchLit cs "present".data i
  reqBoundary cs i

/-- `len(re.findall(pattern, text))`: scan left to right, count non-overlapping
matches, resuming after each match's end (every date pattern consumes at least
one character). Fuel is the number of remaining scan positions. -/
def countMatchesAux (m : List Char → Nat → Option Nat) (cs : List Char) :
    Nat → Nat → Nat
  | 0, _ => 0
  | fuel + 1, i =>
      if i ≤ cs.length then
        match m cs i with
        | some e =>
            if i < e then 1 + countMatchesAux m cs fuel e
            else countMatchesAux m cs fuel (i + 1)
        | none => countMatchesAux m cs fuel (i + 1)
      else 0

/-- Number of `re.findall` matches of one pattern in the text. -/
def countMatches (m : List Char → Nat → Option Nat) (cs : List Char) : Nat :=
  countMatchesAux m cs (cs.length + 1) 0

/-- `date_matches`: the summed `findall` counts over the seven date regexes. -/
def dateMatchCount (cs : List Char) : Nat :=
  countMatches datePat1 cs + countMatches datePat2 cs + countMatches datePat3 cs +
  countMatches datePat4 cs + countMatches datePat5 cs + countMatches datePat6 cs +
  countMatches datePat7 cs

/-- Section-family tier: `>= 3 → 40`, `>= 1 → 20`, else 0. -/
def sectionPoints (n : Nat) : Nat := if 3 ≤ n then 40 else if 1 ≤ n then 20 else 0

/-- Job-title-family tier: `>= 2 → 20`, `>= 1 → 10`, else 0. -/
def jobPoints (n : Nat) : Nat := if 2 ≤ n then 20 else if 1 ≤ n then 10 else 0

/-- Date-family tier: `>= 3 → 20`, `>= 1 → 10`, else 0. -/
def datePoints (n : Nat) : Nat := if 3 ≤ n then 20 else if 1 ≤ n then 10 else 0

/-- Tech-family tier: `>= 5 → 20`, `>= 2 → 10`, else 0. -/
def techPoints (n : Nat) : Nat := if 5 ≤ n then 20 else if 2 ≤ n then 10 else 0

/-- `ResumeValidator.is_resume`: length gate, four signal families over the
lower-cased text, tiered points summed to a score, confidence `score/100`,
verdict `score >= 50`, and the joined explanation strings. -/
def is_resume (text : String) : Bool × ℚ × String :=
  if text = "" ∨ (pyStrip text).length < 200 then
    (false, 0, "Document is too short to be a resume")
  else
    let text_lower := (pyLower text).data
    let section_matches := countPatternHits text_lower RESUME_SECTIONS
    let job_matches := countPatternHits text_lower JOB_TITLES
    let date_matches := dateMatchCount text_lower
    let tech_matches := countPatternHits text_lower TECH_TERMS
    let score := sectionPoints section_matches + jobPoints job_matches +
      datePoints date_matches + techPoints tech_matches
    let explanation :=
      (if 1 ≤ section_matches then
        ["Found " ++ toString section_matches ++ " resume sections"] else []) ++
      (if 1 ≤ job_matches then
        ["Found " ++ toString job_matches ++ " job titles"] else []) ++
      (if 1 ≤ date_matches then
        ["Found " ++ toString date_matches ++ " date patterns"] else []) ++
      (if 1 ≤ tech_matches then
        ["Found " ++ toString tech_matches ++ " technical terms"] else [])
    (decide (50 ≤ score), (score : ℚ) / 100, String.intercalate ", " explanation)

/-- The summed rubric score of a (long enough) text. -/
def rubricScore (text : String) : Nat :=
  sectionPoints (countPatternHits (pyLower text).data RESUME_SECTIONS) +
  jobPoints (countPatternHits (pyLower text).data JOB_TITLES) +
  datePoints (dateMatchCount (pyLower text).data) +
  techPoints (countPatternHits (pyLower text).data TECH_TERMS)

end ResumeValidator

theorem sectionPoints_le (n : Nat) : ResumeValidator.sectionPoints n ≤ 40 := by
  unfold ResumeValidator.sectionPoints
  split_ifs <;> omega

theorem jobPoints_le (n : Nat) : ResumeValidator.jobPoints n ≤ 20 := by
  unfold ResumeValidator.jobPoints
  split_ifs <;> omega

theorem datePoints_le (n : Nat) : ResumeValidator.datePoints n ≤ 20 := by
  unfold ResumeValidator.datePoints
  split_ifs <;> omega

theorem techPoints_le (n : Nat) : ResumeValidator.techPoints n ≤ 20 := by
  unfold ResumeValidator.techPoints
  split_ifs <;> omega

theorem sectionPoints_mono (a b : Nat) (h : a ≤ b) :
    ResumeValidator.sectionPoints a ≤ ResumeValidator.sectionPoints b := by
  unfold ResumeValidator.sectionPoints
  split_ifs <;> omega

theorem jobPoints_mono (a b : Nat) (h : a ≤ b) :
    ResumeValidator.jobPoints a ≤ ResumeValidator.jobPoints b := by
  unfold ResumeValidator.jobPoints
  split_ifs <;> omega

theorem datePoints_mono (a b : Nat) (h : a ≤ b) :
    ResumeValidator.datePoints a ≤ ResumeValidator.datePoints b := by
  unfold ResumeValidator.datePoints
  split_ifs <;> omega

theorem techPoints_mono (a b : Nat) (h : a ≤ b) :
    ResumeValidator.techPoints a ≤ ResumeValidator.techPoints b := by
  unfold ResumeValidator.techPoints
  split_ifs <;> omega

theorem is_resume_fst_of_long (text : String)
    (h : ¬(text = "" ∨ (pyStrip text).length < 200)) :
    (ResumeValidator.is_resume text).1 =
      decide (50 ≤ ResumeValidator.rubricScore text) := by
  unfold ResumeValidator.is_resume
  rw [if_neg h]
  rfl

theorem is_resume_confidence_of_long (text : String)
    (h : ¬(text = "" ∨ (pyStrip text).length < 200)) :
    (ResumeValidator.is_resume text).2.1 =
      (ResumeValidator.rubricScore text : ℚ) / 100 := by
  unfold ResumeValidator.is_resume
  rw [if_neg h]
  rfl

/-- C8: any text whose stripped length is below the 200-character threshold is
rejected up front: verdict `False`, confidence 0, the fixed too-short
rationale — no rubric evaluation happens, whatever the content. -/
theorem is_resume_short_text (text : String) (h : (pyStrip text).length < 200) :
    ResumeValidator.is_resume text =
      (false, 0, "Document is too short to be a resume") := by
  unfold ResumeValidator.is_resume
  rw [if_pos (Or.inr h)]

/-- C8 witness: a short string packed with rubric keywords (section headers,
job titles, tech terms, a date range) is still rejected with confidence 0. -/
theorem is_resume_short_text_witness :
    (pyStrip "experience education skills summary projects python java sql engineer developer jan 2020 2012 - 2016").length < 200 ∧
    ResumeValidator.is_resume
        "experience education skills summary projects python java sql engineer developer jan 2020 2012 - 2016" =
      (false, 0, "Document is too short to be a resume") :=
  ⟨by decide, is_resume_short_text _ (by decide)⟩

/-- C7: for texts at or above the length threshold the classifier computes the
four family match counts, maps each through a tier function that is monotone in
the match count, sums them into `rubricScore ≤ 100`, returns confidence
`score/100 ∈ [0,1]`, and verdict exactly `score ≥ 50`. (Purity is inherent in
the embedding: `is_resume` is a total function of the text alone, mirroring the
source path, which performs no I/O.) -/
theorem is_resume_rubric (text : String) (h : 200 ≤ (pyStrip text).length) :
    ((ResumeValidator.is_resume text).1 = true ↔ 50 ≤ ResumeValidator.rubricScore text) ∧
    (ResumeValidator.is_resume text).2.1 = (ResumeValidator.rubricScore text : ℚ) / 100 ∧
    ResumeValidator.rubricScore text ≤ 100 ∧
    0 ≤ (ResumeValidator.is_resume text).2.1 ∧
    (ResumeValidator.is_resume text).2.1 ≤ 1 ∧
    (∀ a b, a ≤ b → ResumeValidator.sectionPoints a ≤ ResumeValidator.sectionPoints b) ∧
    (∀ a b, a ≤ b → ResumeValidator.jobPoints a ≤ ResumeValidator.jobPoints b) ∧
    (∀ a b, a ≤ b → ResumeValidator.datePoints a ≤ ResumeValidator.datePoints b) ∧
    (∀ a b, a ≤ b → ResumeValidator.techPoints a ≤ ResumeValidator.techPoints b) := by
  have hcond : ¬(text = "" ∨ (pyStrip text).length < 200) := by
    rintro (rfl | hlt)
    · exact absurd h (by decide)
    · omega
  have h1 := is_resume_fst_of_long text hcond
  have h2 := is_resume_confidence_of_long text hcond
  have hb : ResumeValidator.rubricScore text ≤ 100 := by
    unfold ResumeValidator.rubricScore
    have a1 := sectionPoints_le (ResumeValidator.countPatternHits
      (ResumeValidator.pyLower text).data ResumeValidator.RESUME_SECTIONS)
    have a2 := jobPoints_le (ResumeValidator.countPatternHits
      (ResumeValidator.pyLower text).data ResumeValidator.JOB_TITLES)
    have a3 := datePoints_le (ResumeValidator.dateMatchCount
      (ResumeValidator.pyLower text).data)
    have a4 := techPoints_le (ResumeValidator.countPatternHits
      (ResumeValidator.pyLower text).data ResumeValidator.TECH_TERMS)
    omega
  refine ⟨?_, h2, hb, ?_, ?_, sectionPoints_mono, jobPoints_mono, datePoints_mono,
    techPoints_mono⟩
  · rw [h1]
    exact decide_eq_true_iff
  · rw [h2]
    positivity
  · rw [h2, div_le_one (by norm_num)]
    exact_mod_cast hb

/-- The long resume-like text the C7 witness classifies. -/
def witnessResumeText : String :=
  "Summary\nExperienced software engineer and developer with skills in Python, Java, Docker, Kubernetes, SQL.\nExperience\nAcme Corp: jan 2020 - present\nEducation\nState University 2012 - 2016\nProjects\nBuilt large scale systems."

set_option maxRecDepth 100000 in
/-- C7 witness: the rubric contract instantiated on a concrete 221-character
resume-like text. -/
theorem is_resume_rubric_witness :
    200 ≤ (pyStrip witnessResumeText).length ∧
    (((ResumeValidator.is_resume witnessResumeText).1 = true ↔
        50 ≤ ResumeValidator.rubricScore witnessResumeText) ∧
    (ResumeValidator.is_resume witnessResumeText).2.1 =
      (ResumeValidator.rubricScore witnessResumeText : ℚ) / 100 ∧
    ResumeValidator.rubricScore witnessResumeText ≤ 100 ∧
    0 ≤ (ResumeValidator.is_resume witnessResumeText).2.1 ∧
    (ResumeValidator.is_resume witnessResumeText).2.1 ≤ 1 ∧
    (∀ a b, a ≤ b → ResumeValidator.sectionPoints a ≤ ResumeValidator.sectionPoints b) ∧
    (∀ a b, a ≤ b → ResumeValidator.jobPoints a ≤ ResumeValidator.jobPoints b) ∧
    (∀ a b, a ≤ b → ResumeValidator.datePoints a ≤ ResumeValidator.datePoints b) ∧
    (∀ a b, a ≤ b → ResumeValidator.techPoints a ≤ ResumeValidator.techPoints b)) :=
  ⟨by decide, is_resume_rubric witnessResumeText (by decide)⟩
